import Mathlib

/-!
# Verification of the `banks_project.py` ETL pipeline

Shallow embedding of the single source file `src/banks_project.py`
(functions `extract`, `transform`, `load_to_csv`, `load_to_db`,
`run_query` and the `__main__` block) together with proofs about the
claims of the specification.

Modelling conventions:
* Python floats are modelled as rationals (`ℚ`).  All market-cap data in
  scope are decimal fractions, which every IEEE-754 double is, so the
  theorems carry a "terminating decimal" hypothesis where the decimal
  expansion matters.
* `numpy.round(x, 2)` multiplies the IEEE double `x` by `100`, applies
  `rint` (round half to even) and divides back.  We model the
  composition as half-to-even rounding of the exact scaled rational.
  This matches the script on the data in scope: away from ties the
  representation error of the doubles is far too small to move the
  scaled value across a rounding boundary at these magnitudes, and at
  the one load-bearing tie, `(50.25 * 0.9) * 100`, the double product
  lands exactly on the representable value `4522.5` (the five mantissa
  bits dropped by the scaling hold less than half an ulp), so both the
  script and the model round half-to-even to `4522`, i.e. `45.22` —
  not the `45.23` the specification's example shows.
* HTML fetching/parsing is external I/O: a fetched document is modelled
  as the list of its tables, a table (its `tbody`) as the list of its
  rows, and a row as the list of the trimmed-able texts of its `td`
  cells.
* The pandas `DataFrame` object mutated by `transform` is modelled with
  an explicit heap (`Nat → DataFrame`): Python variables are references,
  and `df['col'] = ...` is an update of the heap cell, visible through
  every alias of the same reference.
-/

/-- Characters stripped by Python `str.strip()` / `get_text(strip=True)`. -/
def pyWhitespace (c : Char) : Bool := c.isWhitespace

/-- Strip whitespace from both ends of a character list (`str.strip()`). -/
def stripChars (cs : List Char) : List Char :=
  ((cs.dropWhile pyWhitespace).reverse.dropWhile pyWhitespace).reverse

/-- Python `str.strip()`, used by `get_text(strip=True)` in `extract`. -/
def pyStrip (s : String) : String := String.mk (stripChars s.toList)

/-- Numeric value of a decimal digit character. -/
def digitVal (c : Char) : ℕ := c.toNat - 48

/-- Value of a big-endian string of decimal digit characters. -/
def digitsToNat (cs : List Char) : ℕ :=
  cs.foldl (fun a c => 10 * a + digitVal c) 0

/-- Value of an unsigned decimal literal, possibly with a fractional
part after one dot, as accepted by Python `float()`.  (The model covers
plain decimal literals; exponents, `inf`, `nan` and underscores are out
of scope for the data in this pipeline.) -/
def parseUnsigned (cs : List Char) : Option ℚ :=
  let ip := cs.takeWhile (fun c => c ≠ '.')
  let rest := cs.dropWhile (fun c => c ≠ '.')
  match rest with
  | [] =>
    if ip ≠ [] ∧ ip.all Char.isDigit then some (digitsToNat ip) else none
  | _ :: fp =>
    if (ip ≠ [] ∨ fp ≠ []) ∧ ip.all Char.isDigit ∧ fp.all Char.isDigit then
      some ((digitsToNat ip : ℚ) + (digitsToNat fp : ℚ) / 10 ^ fp.length)
    else none

/-- Python `float(s)` on an already-stripped string: optional sign, then
an unsigned decimal literal. -/
def parseFloatChars (cs : List Char) : Option ℚ :=
  match cs with
  | [] => parseUnsigned []
  | c :: t =>
    if c = '-' then (parseUnsigned t).map (fun x => -x)
    else if c = '+' then parseUnsigned t
    else parseUnsigned (c :: t)

/-- Python `float(s)` (model), as used in `extract` line 58. -/
def parseFloat (s : String) : Option ℚ := parseFloatChars s.toList

/-- Rounding to the nearest integer with ties to even, the behaviour
of `numpy.rint`. -/
def rint (q : ℚ) : ℤ :=
  if q - ⌊q⌋ < 1 / 2 then ⌊q⌋
  else if 1 / 2 < q - ⌊q⌋ then ⌊q⌋ + 1
  else if 2 ∣ ⌊q⌋ then ⌊q⌋ else ⌊q⌋ + 1

/-- The model of `np.round(x, 2)` (lines 81–83): numpy scales by
`10^2`, applies `rint` (round half to even) and unscales.  We apply
the half-to-even rounding to the exact scaled rational; see the module
comment for why this matches the script's double arithmetic on the
data in scope. -/
def round2 (x : ℚ) : ℚ := ((rint (x * 100) : ℤ) : ℚ) / 100

/-- A row of the extracted table: `banks_project.py` builds the
DataFrame from the columns `Name` and `MC_USD_Billion` (line 61). -/
structure BankRecord where
  Name : String
  MC_USD_Billion : ℚ
deriving DecidableEq, Repr

/-- Error cases of `extract`: `data.select('table tbody')[0]` raises
when the document has no table (IndexError), and `float(...)` raises on
a non-numeric market-cap cell (ValueError); the spec groups both as
`ParseError`. -/
inductive ExtractErr where
  | noTable : ExtractErr
  | nonNumeric : String → ExtractErr
deriving DecidableEq, Repr

/-- The row loop of `extract` (lines 54–58): for each row with exactly
three `td` cells, append the stripped text of the second cell as the
name and the stripped text of the third cell parsed as a float; rows
with a different cell count are skipped; a failing `float()` aborts. -/
def parseRows : List (List String) → Except ExtractErr (List BankRecord)
  | [] => Except.ok []
  | row :: rest =>
    if row.length = 3 then
      match parseFloat (pyStrip (row.getD 2 "")) with
      | none => Except.error (ExtractErr.nonNumeric (pyStrip (row.getD 2 "")))
      | some v =>
        match parseRows rest with
        | Except.error e => Except.error e
        | Except.ok recs => Except.ok (⟨pyStrip (row.getD 1 ""), v⟩ :: recs)
    else
      parseRows rest

/-- `extract` (lines 42–62): take the first table of the fetched
document (IndexError when there is none), drop its header row, and run
the row loop. -/
def extract (tables : List (List (List String))) : Except ExtractErr (List BankRecord) :=
  match tables with
  | [] => Except.error ExtractErr.noTable
  | t :: _ => parseRows (t.drop 1)

/-- The dictionary built by
`exchange_rates_df.set_index('Currency')['Rate'].to_dict()`
(line 78): entries are inserted in file order, a later row with the
same currency code overwriting the earlier one. -/
def toRateDict (rows : List (String × ℚ)) : String → Option ℚ :=
  rows.foldl (fun d p => fun c => if c = p.1 then some p.2 else d c) (fun _ => none)

/-- The pandas DataFrame flowing through the pipeline: the two columns
built by `extract` plus the derived columns added (in place) by
`transform`, in insertion order. -/
structure DataFrame where
  names : List String
  usd : List ℚ
  extra : List (String × List ℚ)
deriving DecidableEq, Repr

/-- Column assignment `df[c] = vals`: replace the column when it
already exists, otherwise append it. -/
def setCol (df : DataFrame) (c : String) (vals : List ℚ) : DataFrame :=
  if (df.extra.map Prod.fst).contains c then
    { df with extra := df.extra.map (fun p => if p.1 = c then (c, vals) else p) }
  else
    { df with extra := df.extra ++ [(c, vals)] }

/-- One list comprehension
`[np.round(x*exchange_rates_dict[c],2) for x in df['MC_USD_Billion']]`
(lines 81–83): the dictionary lookup happens inside the comprehension
body, so an empty column raises nothing, while a nonempty column with a
missing key raises `KeyError c` before anything is assigned. -/
def deriveColumn (usd : List ℚ) (d : String → Option ℚ) (c : String) :
    Except String (List ℚ) :=
  match usd with
  | [] => Except.ok []
  | x :: t =>
    match d c with
    | none => Except.error c
    | some r => Except.ok ((x :: t).map (fun y => round2 (y * r)))

/-- The mutable store of Python objects: references are numbers, each
holding a DataFrame. -/
def Heap : Type := ℕ → DataFrame

/-- Write a DataFrame into a heap cell. -/
def hUpdate (h : Heap) (r : ℕ) (df : DataFrame) : Heap :=
  fun n => if n = r then df else h n

/-- `transform` (lines 64–85) on the heap: `df` is the reference `r`.
Each of the three column assignments mutates the object behind `r`
before the next lookup; the function returns the same reference.  The
rate file has already been read into `rateRows` (`pd.read_csv`,
line 75). -/
def runTransform (h : Heap) (r : ℕ) (rateRows : List (String × ℚ)) :
    Heap × Except String ℕ :=
  let d := toRateDict rateRows
  let df0 := h r
  match deriveColumn df0.usd d "GBP" with
  | Except.error c => (h, Except.error c)
  | Except.ok gcol =>
    let df1 := setCol df0 "MC_GBP_Billion" gcol
    let h1 := hUpdate h r df1
    match deriveColumn df1.usd d "EUR" with
    | Except.error c => (h1, Except.error c)
    | Except.ok ecol =>
      let df2 := setCol df1 "MC_EUR_Billion" ecol
      let h2 := hUpdate h1 r df2
      match deriveColumn df2.usd d "INR" with
      | Except.error c => (h2, Except.error c)
      | Except.ok icol => (hUpdate h2 r (setCol df2 "MC_INR_Billion" icol), Except.ok r)

/-- Observable milestones of the `__main__` block (lines 128–153). -/
inductive Event where
  | extractEv : Event
  | transformEv : Event
  | csvEv : Event
  | openConn : Event
  | writeDB : Event
  | queryEv : Event
  | closeConn : Event
deriving DecidableEq, Repr

/-- The straight-line `__main__` block (lines 128–153): each Boolean
says whether the corresponding stage returns normally; an exception
aborts the run at that point (there is no `try`/`finally`), so the
trace simply stops.  `sqlite3.connect` follows `load_to_csv`;
`sql_connection.close()` is the last statement. -/
def mainTrace (e t c w q : Bool) : List Event :=
  if e then
    Event.extractEv ::
      (if t then
        Event.transformEv ::
          (if c then
            Event.csvEv :: Event.openConn ::
              (if w then
                Event.writeDB :: (if q then [Event.queryEv, Event.closeConn] else [])
              else [])
          else [])
      else [])
  else []

/-- Concrete fetched document for the extraction witness: a header row,
two valid three-cell rows, and one malformed two-cell row. -/
def sampleTable : List (List String) :=
  [["x", "y", "z"], ["1", " BankA ", "100.5"], ["1", "2"], ["2", "BankB", "50.25"]]

/-- The records `extract` produces from `sampleTable`. -/
def sampleRecs : List BankRecord :=
  [⟨"BankA", 201 / 2⟩, ⟨"BankB", 201 / 4⟩]

/-- A one-row DataFrame as `extract` would produce it. -/
def dfA : DataFrame := { names := ["BankA"], usd := [1], extra := [] }

/-- A heap whose every cell holds `dfA`; reference 0 plays the role of
the Python variable `df`. -/
def heapA : Heap := fun _ => dfA

/-- A rate file holding all three required currencies. -/
def ratesFull : List (String × ℚ) := [("GBP", 2), ("EUR", 1 / 2), ("INR", 10)]

/-- A rate file holding only GBP — the spec's own missing-rate example. -/
def ratesGBPOnly : List (String × ℚ) := [("GBP", 2)]

/-- The input DataFrame of the spec's worked example
`[("BankA","100.5"),("BankB","50.25")]`. -/
def dfBanks : DataFrame :=
  { names := ["BankA", "BankB"], usd := [201 / 2, 201 / 4], extra := [] }

/-- A heap whose every cell holds `dfBanks`. -/
def heapBanks : Heap := fun _ => dfBanks

/-- The spec's example rates `{GBP:0.8, EUR:0.9, INR:80.0}`. -/
def ratesExample : List (String × ℚ) := [("GBP", 4 / 5), ("EUR", 9 / 10), ("INR", 80)]

/-- What the program actually computes from `dfBanks` and
`ratesExample`: note `45.22` (= 2261/50) for BankB's EUR value, where
the spec's example shows `45.23`. -/
def enrichedBanks : DataFrame :=
  { names := ["BankA", "BankB"], usd := [201 / 2, 201 / 4],
    extra := [("MC_GBP_Billion", [402 / 5, 201 / 5]),
              ("MC_EUR_Billion", [1809 / 20, 2261 / 50]),
              ("MC_INR_Billion", [8040, 4020])] }

/-- The character of a decimal digit. -/
def digitChar (d : ℕ) : Char := Char.ofNat (48 + d)

/-- Little-endian decimal digits, with explicit fuel so the kernel can
evaluate it. -/
def natDigitsAux : ℕ → ℕ → List ℕ
  | 0, _ => []
  | fuel + 1, n => if n = 0 then [] else n % 10 :: natDigitsAux fuel (n / 10)

/-- Little-endian decimal digits of a natural number. -/
def natDigits (n : ℕ) : List ℕ := natDigitsAux n n

/-- Value of a little-endian digit list. -/
def valLE (ds : List ℕ) : ℕ := ds.foldr (fun d a => d + 10 * a) 0

/-- Decimal character string of a natural number. -/
def natToChars (n : ℕ) : List Char :=
  if n = 0 then ['0'] else (natDigits n).reverse.map digitChar

/-- Search for the least `k ≥ start` with `d ∣ 10 ^ k`, with fuel. -/
def findExpAux : ℕ → ℕ → ℕ → Option ℕ
  | 0, _, _ => none
  | fuel + 1, d, k => if d ∣ 10 ^ k then some k else findExpAux fuel d (k + 1)

/-- The least `k` with `d ∣ 10 ^ k`, when the search succeeds. -/
def findExp (d : ℕ) : Option ℕ := findExpAux (d + 1) d 0

/-- Python `repr` of a nonnegative float whose value is the decimal
fraction `a`: the shortest decimal digit string, but always at least
one digit after the dot (`8040.0`, `80.4`, `45.23`).  This is how
pandas `to_csv` renders the float columns. -/
def formatNonneg (a : ℚ) : List Char :=
  match findExp a.den with
  | none => ['N', 'a', 'N']
  | some k0 =>
    let k := max 1 k0
    let n := (a * (10 : ℚ) ^ k).num.toNat
    natToChars (n / 10 ^ k) ++
      '.' :: (List.replicate (k - (natToChars (n % 10 ^ k)).length) '0' ++
        natToChars (n % 10 ^ k))

/-- Python `repr` of a float value, sign included. -/
def formatFloatChars (q : ℚ) : List Char :=
  if q < 0 then '-' :: formatNonneg (-q) else formatNonneg q

/-- Python `repr` of a float value, as a string. -/
def formatFloat (q : ℚ) : String := String.mk (formatFloatChars q)

/-- The rational has a terminating decimal expansion (true of every
IEEE-754 double, whose denominator is a power of two). -/
def IsDecimalQ (q : ℚ) : Prop := q.den ∣ 10 ^ q.den

/-- A row of the transformed table, as `load_to_csv` receives it. -/
structure EnrichedBankRecord where
  Name : String
  MC_USD_Billion : ℚ
  MC_GBP_Billion : ℚ
  MC_EUR_Billion : ℚ
  MC_INR_Billion : ℚ
deriving DecidableEq, Repr

/-- Characters that force pandas `to_csv` (csv.QUOTE_MINIMAL) to quote
a field. -/
def specialChar (c : Char) : Bool :=
  (c == ',') || (c == '"') || (c == '\n') || (c == '\r')

/-- Double the quote characters inside a quoted field. -/
def escapeChars : List Char → List Char
  | [] => []
  | c :: t => if c = '"' then '"' :: '"' :: escapeChars t else c :: escapeChars t

/-- Serialize one CSV field with minimal quoting, as `to_csv` does. -/
def serializeFieldChars (s : String) : List Char :=
  if s.toList.any specialChar then '"' :: (escapeChars s.toList ++ ['"']) else s.toList

/-- Comma-join the serialized fields of one CSV row. -/
def joinComma : List String → List Char
  | [] => []
  | [f] => serializeFieldChars f
  | f :: g :: t => serializeFieldChars f ++ ',' :: joinComma (g :: t)

/-- The header written by `df.to_csv(..., index=False)` (line 97):
the column names in insertion order. -/
def headerFields : List String :=
  ["Name", "MC_USD_Billion", "MC_GBP_Billion", "MC_EUR_Billion", "MC_INR_Billion"]

/-- The field strings of one data row of the CSV file. -/
def recFields (r : EnrichedBankRecord) : List String :=
  [r.Name, formatFloat r.MC_USD_Billion, formatFloat r.MC_GBP_Billion,
   formatFloat r.MC_EUR_Billion, formatFloat r.MC_INR_Billion]

/-- Newline-terminated concatenation of CSV rows. -/
def docOf : List (List String) → List Char
  | [] => []
  | row :: t => joinComma row ++ '\n' :: docOf t

/-- `load_to_csv` (lines 87–97): `df.to_csv(output_path, index=False)`
writes the header row and one line per record, fields comma-separated
with minimal quoting, floats in `repr` form, each line
newline-terminated. -/
def load_to_csv (recs : List EnrichedBankRecord) : String :=
  String.mk (docOf (headerFields :: recs.map recFields))

/-- Parser mode of the quote-aware CSV reader. -/
inductive CSVMode where
  | atStart : CSVMode
  | inField : CSVMode
  | inQuotes : CSVMode
  | afterQuote : CSVMode
  | failed : CSVMode
deriving DecidableEq, Repr

/-- State of the CSV reader: mode, the field and row being built, and
the finished rows. -/
structure CSVState where
  mode : CSVMode
  field : List Char
  row : List String
  rows : List (List String)
deriving DecidableEq, Repr

/-- One step of the CSV reader. -/
def csvStep (st : CSVState) (c : Char) : CSVState :=
  match st.mode with
  | CSVMode.atStart =>
    if c = '"' then { st with mode := CSVMode.inQuotes }
    else if c = ',' then
      { mode := CSVMode.atStart, field := [], row := st.row ++ [String.mk st.field], rows := st.rows }
    else if c = '\n' then
      { mode := CSVMode.atStart, field := [], row := [], rows := st.rows ++ [st.row ++ [String.mk st.field]] }
    else { st with mode := CSVMode.inField, field := st.field ++ [c] }
  | CSVMode.inField =>
    if c = ',' then
      { mode := CSVMode.atStart, field := [], row := st.row ++ [String.mk st.field], rows := st.rows }
    else if c = '\n' then
      { mode := CSVMode.atStart, field := [], row := [], rows := st.rows ++ [st.row ++ [String.mk st.field]] }
    else { st with field := st.field ++ [c] }
  | CSVMode.inQuotes =>
    if c = '"' then { st with mode := CSVMode.afterQuote }
    else { st with field := st.field ++ [c] }
  | CSVMode.afterQuote =>
    if c = '"' then { st with mode := CSVMode.inQuotes, field := st.field ++ ['"'] }
    else if c = ',' then
      { mode := CSVMode.atStart, field := [], row := st.row ++ [String.mk st.field], rows := st.rows }
    else if c = '\n' then
      { mode := CSVMode.atStart, field := [], row := [], rows := st.rows ++ [st.row ++ [String.mk st.field]] }
    else { st with mode := CSVMode.failed }
  | CSVMode.failed => st

/-- Starting state of the CSV reader. -/
def csvInit : CSVState :=
  { mode := CSVMode.atStart, field := [], row := [], rows := [] }

/-- Flush the reader state at end of input. -/
def csvFinish (st : CSVState) : Option (List (List String)) :=
  match st.mode with
  | CSVMode.inQuotes => none
  | CSVMode.failed => none
  | CSVMode.atStart =>
    if st.row = [] ∧ st.field = [] then some st.rows
    else some (st.rows ++ [st.row ++ [String.mk st.field]])
  | _ => some (st.rows ++ [st.row ++ [String.mk st.field]])

/-- Split a character stream into CSV rows of fields. -/
def splitRows (cs : List Char) : Option (List (List String)) :=
  csvFinish (cs.foldl csvStep csvInit)

/-- Typed view of one data row: name string plus four float columns. -/
def parseRecord (fs : List String) : Option EnrichedBankRecord :=
  match fs with
  | [n, u, g, e, i] =>
    match parseFloat u, parseFloat g, parseFloat e, parseFloat i with
    | some u', some g', some e', some i' => some ⟨n, u', g', e', i'⟩
    | _, _, _, _ => none
  | _ => none

/-- Modelled from the spec: re-reading the CSV file is not code of this
repository (only `load_to_csv` writes it), so the reader is the spec's
"re-reading it yields a record set": a standard quote-aware CSV parse
of the file, checking the header and parsing the four numeric columns
as floats. -/
def readCSV (s : String) : Option (List EnrichedBankRecord) :=
  match splitRows s.toList with
  | none => none
  | some [] => none
  | some (hdr :: dataRows) =>
    if hdr = headerFields then dataRows.mapM parseRecord else none

/-- Number of characters after the last dot — the number of decimal
places shown for a formatted float. -/
def fracDigitCount (cs : List Char) : ℕ :=
  (cs.reverse.takeWhile (fun c => c ≠ '.')).length

/-- Record set for the round-trip witness. -/
def sampleEnriched : List EnrichedBankRecord :=
  [⟨"BankA", 201 / 2, 402 / 5, 1809 / 20, 8040⟩]

/-! ## Helper lemmas -/

/-- Two successive writes to the same heap cell collapse to the last. -/
theorem hUpdate_hUpdate (h : Heap) (r : ℕ) (a b : DataFrame) :
    hUpdate (hUpdate h r a) r b = hUpdate h r b := by
  funext n
  simp only [hUpdate]
  split <;> rfl

/-- Reading the written cell gives the written value. -/
theorem hUpdate_same (h : Heap) (r : ℕ) (a : DataFrame) :
    hUpdate h r a r = a := by
  simp [hUpdate]

/-- The dictionary fold, for an arbitrary starting dictionary: the
result at `c` is the last binding of `c` in the row list, if any, and
the starting dictionary's answer otherwise. -/
theorem foldl_ins_eq (rows : List (String × ℚ)) (d : String → Option ℚ) (c : String) :
    (rows.foldl (fun d p => fun x => if x = p.1 then some p.2 else d x) d) c =
      match rows.reverse.find? (fun p => p.1 == c) with
      | some p => some p.2
      | none => d c := by
  induction rows generalizing d with
  | nil => simp
  | cons p t ih =>
    simp only [List.foldl_cons, List.reverse_cons, List.find?_append, ih]
    cases hf : t.reverse.find? (fun p => p.1 == c) with
    | some q => simp [Option.or]
    | none =>
      by_cases hc : p.1 = c
      · simp [List.find?, hc, Option.or]
      · rw [if_neg (Ne.symm hc)]
        simp [List.find?, Option.or, beq_eq_false_iff_ne.mpr hc]

/-! ## C10: the rate mapping keeps the last occurrence of a currency -/

/-- C10: the currency→rate dictionary built by `transform`
(`set_index('Currency')['Rate'].to_dict()`) maps each currency code to
the rate of its final occurrence in the rate file: the lookup equals
the first match in the reversed row list. -/
theorem transform_rate_last_occurrence (rows : List (String × ℚ)) (c : String) :
    toRateDict rows c = (rows.reverse.find? (fun p => p.1 == c)).map Prod.snd := by
  rw [toRateDict, foldl_ins_eq]
  cases rows.reverse.find? (fun p => p.1 == c) <;> simp

/-! ## C6: connection lifecycle of the main block -/

/-- C6 counterexample: when `load_to_db` raises (and everything before
succeeded), the connection has been opened but `close()` is never
reached — the main block has no `try`/`finally`. -/
theorem main_close_skipped_on_db_error :
    Event.openConn ∈ mainTrace true true true false true ∧
      Event.closeConn ∉ mainTrace true true true false true := by
  decide

/-- C6 amended: the connection is opened once (exactly when the stages
before it succeed) and used for the write and the verification query,
but `close()` runs only on the all-success path; on that path it is the
final event. -/
theorem main_connection_lifecycle :
    ∀ e t c w q : Bool,
      (Event.closeConn ∈ mainTrace e t c w q ↔ e ∧ t ∧ c ∧ w ∧ q) ∧
      (Event.openConn ∈ mainTrace e t c w q ↔ e ∧ t ∧ c) ∧
      (mainTrace e t c w q).count Event.openConn ≤ 1 ∧
      mainTrace true true true true true =
        [Event.extractEv, Event.transformEv, Event.csvEv, Event.openConn,
         Event.writeDB, Event.queryEv, Event.closeConn] := by
  decide

/-! ## C2 and C4: the extractor -/

/-- On a successful run, the row loop returns one record per three-cell
row, in order: the name is the stripped second cell and the market cap
is the parsed stripped third cell. -/
theorem parseRows_ok_forall2 (rows : List (List String)) (recs : List BankRecord)
    (h : parseRows rows = Except.ok recs) :
    List.Forall₂ (fun (row : List String) (rec : BankRecord) =>
        rec.Name = pyStrip (row.getD 1 "") ∧
        parseFloat (pyStrip (row.getD 2 "")) = some rec.MC_USD_Billion)
      (rows.filter (fun row => row.length == 3)) recs := by
  induction rows generalizing recs with
  | nil =>
    simp only [parseRows, Except.ok.injEq] at h
    subst h
    exact List.Forall₂.nil
  | cons row rest ih =>
    by_cases h3 : row.length = 3
    · simp only [parseRows, if_pos h3] at h
      cases hp : parseFloat (pyStrip (row.getD 2 "")) with
      | none => rw [hp] at h; exact absurd h (by simp)
      | some v =>
        rw [hp] at h
        cases hr : parseRows rest with
        | error er => rw [hr] at h; exact absurd h (by simp)
        | ok recs₀ =>
          rw [hr] at h
          simp only [Except.ok.injEq] at h
          subst h
          have hb : (row.length == 3) = true := beq_iff_eq.mpr h3
          simp only [List.filter_cons, hb, if_true]
          exact List.Forall₂.cons ⟨rfl, hp⟩ (ih recs₀ hr)
    · simp only [parseRows, if_neg h3] at h
      have := ih recs h
      simpa [List.filter_cons, h3] using this

/-- C2: for every fetched document with a table, a successful `extract`
skips the first body row and yields exactly one record per remaining
three-cell row, in document order — the record's name is the trimmed
second cell and its market cap the trimmed third cell parsed as a
float; rows with another cell count are skipped, and the output length
is the number of three-cell rows. -/
theorem extract_valid_rows (t : List (List String)) (ts : List (List (List String)))
    (recs : List BankRecord) (h : extract (t :: ts) = Except.ok recs) :
    List.Forall₂ (fun (row : List String) (rec : BankRecord) =>
        rec.Name = pyStrip (row.getD 1 "") ∧
        parseFloat (pyStrip (row.getD 2 "")) = some rec.MC_USD_Billion)
      ((t.drop 1).filter (fun row => row.length == 3)) recs ∧
    recs.length = ((t.drop 1).filter (fun row => row.length == 3)).length := by
  have h' : parseRows (t.drop 1) = Except.ok recs := h
  have hf := parseRows_ok_forall2 _ _ h'
  exact ⟨hf, hf.length_eq.symm⟩

/-- Witness for C2 at `sampleTable`: the malformed two-cell row is
skipped, the two valid rows give the two records in order. -/
theorem extract_valid_rows_witness :
    extract [sampleTable] = Except.ok sampleRecs ∧
    (List.Forall₂ (fun (row : List String) (rec : BankRecord) =>
        rec.Name = pyStrip (row.getD 1 "") ∧
        parseFloat (pyStrip (row.getD 2 "")) = some rec.MC_USD_Billion)
      ((sampleTable.drop 1).filter (fun row => row.length == 3)) sampleRecs ∧
    sampleRecs.length = ((sampleTable.drop 1).filter (fun row => row.length == 3)).length) := by
  have h : extract [sampleTable] = Except.ok sampleRecs := by
    simp [extract, sampleTable, sampleRecs, parseRows, parseFloat, parseFloatChars,
      parseUnsigned, pyStrip, stripChars, pyWhitespace, digitsToNat, digitVal]
    norm_num
  exact ⟨h, extract_valid_rows sampleTable [] sampleRecs h⟩

/-- The row loop fails exactly when some three-cell row has a
market-cap cell that does not parse as a float. -/
theorem parseRows_error_iff (rows : List (List String)) :
    (∃ er, parseRows rows = Except.error er) ↔
      ∃ row ∈ rows, row.length = 3 ∧ parseFloat (pyStrip (row.getD 2 "")) = none := by
  induction rows with
  | nil => simp [parseRows]
  | cons row rest ih =>
    by_cases h3 : row.length = 3
    · cases hp : parseFloat (pyStrip (row.getD 2 "")) with
      | none =>
        constructor
        · intro _
          exact ⟨row, by simp, h3, hp⟩
        · intro _
          refine ⟨ExtractErr.nonNumeric (pyStrip (row.getD 2 "")), ?_⟩
          simp only [parseRows, if_pos h3, hp]
      | some v =>
        constructor
        · rintro ⟨er, her⟩
          simp only [parseRows, if_pos h3, hp] at her
          cases hr : parseRows rest with
          | error er₀ =>
            have : ∃ e, parseRows rest = Except.error e := ⟨er₀, hr⟩
            obtain ⟨r, hmem, hlen, hnone⟩ := ih.mp this
            exact ⟨r, by simp [hmem], hlen, hnone⟩
          | ok recs₀ => rw [hr] at her; exact absurd her (by simp)
        · rintro ⟨r, hmem, hlen, hnone⟩
          rcases List.mem_cons.mp hmem with heq | hmem₀
          · subst heq; rw [hp] at hnone; exact absurd hnone (by simp)
          · obtain ⟨er, her⟩ := ih.mpr ⟨r, hmem₀, hlen, hnone⟩
            refine ⟨er, ?_⟩
            simp only [parseRows, if_pos h3, hp, her]
    · constructor
      · rintro ⟨er, her⟩
        simp only [parseRows, if_neg h3] at her
        obtain ⟨r, hmem, hlen, hnone⟩ := ih.mp ⟨er, her⟩
        exact ⟨r, by simp [hmem], hlen, hnone⟩
      · rintro ⟨r, hmem, hlen, hnone⟩
        rcases List.mem_cons.mp hmem with heq | hmem₀
        · subst heq; exact absurd hlen h3
        · obtain ⟨er, her⟩ := ih.mpr ⟨r, hmem₀, hlen, hnone⟩
          exact ⟨er, by simp [parseRows, if_neg h3, her]⟩

/-- C4: `extract` fails exactly when the document has no table, or some
three-cell body row has a non-numeric market-cap cell; on every other
fetched document it returns normally. -/
theorem extract_error_iff (tables : List (List (List String))) :
    (∃ er, extract tables = Except.error er) ↔
      (tables = [] ∨
       ∃ row ∈ (tables.headD []).drop 1,
         row.length = 3 ∧ parseFloat (pyStrip (row.getD 2 "")) = none) := by
  cases tables with
  | nil => simp [extract]
  | cons t ts =>
    constructor
    · rintro ⟨er, her⟩
      have : ∃ e, parseRows (t.drop 1) = Except.error e := ⟨er, her⟩
      exact Or.inr (by simpa using (parseRows_error_iff (t.drop 1)).mp this)
    · rintro (hnil | hbad)
      · exact absurd hnil (by simp)
      · obtain ⟨er, her⟩ := (parseRows_error_iff (t.drop 1)).mpr (by simpa using hbad)
        exact ⟨er, her⟩

/-! ## The transformer: helper lemmas -/

/-- A column assignment changes neither the `Name` column... -/
theorem setCol_names (df : DataFrame) (c : String) (vals : List ℚ) :
    (setCol df c vals).names = df.names := by
  unfold setCol
  split <;> rfl

/-- ... nor the `MC_USD_Billion` column. -/
theorem setCol_usd (df : DataFrame) (c : String) (vals : List ℚ) :
    (setCol df c vals).usd = df.usd := by
  unfold setCol
  split <;> rfl

/-- When the key is present the comprehension succeeds and yields the
rounded scaled column. -/
theorem deriveColumn_ok (usd : List ℚ) (d : String → Option ℚ) (c : String) (v : ℚ)
    (hv : d c = some v) :
    deriveColumn usd d c = Except.ok (usd.map (fun y => round2 (y * v))) := by
  cases usd with
  | nil => simp [deriveColumn]
  | cons x t => simp [deriveColumn, hv]

/-- When the key is missing and the column nonempty the comprehension
raises `KeyError c`. -/
theorem deriveColumn_err (usd : List ℚ) (d : String → Option ℚ) (c : String)
    (hu : usd ≠ []) (hv : d c = none) :
    deriveColumn usd d c = Except.error c := by
  cases usd with
  | nil => exact absurd rfl hu
  | cons x t => simp [deriveColumn, hv]

/-- Full success behaviour of `transform`: with all three keys present,
the heap cell behind `df` ends up holding the original two columns plus
the three derived columns, and the function returns the same reference. -/
theorem runTransform_ok_spec (h : Heap) (r : ℕ) (rows : List (String × ℚ)) (g e i : ℚ)
    (hg : toRateDict rows "GBP" = some g) (he : toRateDict rows "EUR" = some e)
    (hi : toRateDict rows "INR" = some i) (hx : (h r).extra = []) :
    runTransform h r rows =
      (hUpdate h r
        { names := (h r).names, usd := (h r).usd,
          extra := [("MC_GBP_Billion", (h r).usd.map (fun x => round2 (x * g))),
                    ("MC_EUR_Billion", (h r).usd.map (fun x => round2 (x * e))),
                    ("MC_INR_Billion", (h r).usd.map (fun x => round2 (x * i)))] },
       Except.ok r) := by
  have e1 : setCol (h r) "MC_GBP_Billion" ((h r).usd.map (fun x => round2 (x * g))) =
      { names := (h r).names, usd := (h r).usd,
        extra := [("MC_GBP_Billion", (h r).usd.map (fun x => round2 (x * g)))] } := by
    simp [setCol, hx]
  have e2 : setCol
      { names := (h r).names, usd := (h r).usd,
        extra := [("MC_GBP_Billion", (h r).usd.map (fun x => round2 (x * g)))] }
      "MC_EUR_Billion" ((h r).usd.map (fun x => round2 (x * e))) =
      { names := (h r).names, usd := (h r).usd,
        extra := [("MC_GBP_Billion", (h r).usd.map (fun x => round2 (x * g))),
                  ("MC_EUR_Billion", (h r).usd.map (fun x => round2 (x * e)))] } := by
    simp [setCol]
  have e3 : setCol
      { names := (h r).names, usd := (h r).usd,
        extra := [("MC_GBP_Billion", (h r).usd.map (fun x => round2 (x * g))),
                  ("MC_EUR_Billion", (h r).usd.map (fun x => round2 (x * e)))] }
      "MC_INR_Billion" ((h r).usd.map (fun x => round2 (x * i))) =
      { names := (h r).names, usd := (h r).usd,
        extra := [("MC_GBP_Billion", (h r).usd.map (fun x => round2 (x * g))),
                  ("MC_EUR_Billion", (h r).usd.map (fun x => round2 (x * e))),
                  ("MC_INR_Billion", (h r).usd.map (fun x => round2 (x * i)))] } := by
    simp [setCol]
  simp only [runTransform, deriveColumn_ok _ _ _ _ hg, e1,
    deriveColumn_ok _ _ _ _ he, e2, deriveColumn_ok _ _ _ _ hi, e3,
    hUpdate_hUpdate]

/-- Failure behaviour of `transform` when EUR is missing but GBP is
present: the GBP column has already been assigned into the object
behind `df` when the EUR lookup raises. -/
theorem runTransform_eur_missing_spec (h : Heap) (r : ℕ) (rows : List (String × ℚ)) (g : ℚ)
    (hg : toRateDict rows "GBP" = some g) (he : toRateDict rows "EUR" = none)
    (hu : (h r).usd ≠ []) (hx : (h r).extra = []) :
    runTransform h r rows =
      (hUpdate h r
        { names := (h r).names, usd := (h r).usd,
          extra := [("MC_GBP_Billion", (h r).usd.map (fun x => round2 (x * g)))] },
       Except.error "EUR") := by
  have e1 : setCol (h r) "MC_GBP_Billion" ((h r).usd.map (fun x => round2 (x * g))) =
      { names := (h r).names, usd := (h r).usd,
        extra := [("MC_GBP_Billion", (h r).usd.map (fun x => round2 (x * g)))] } := by
    simp [setCol, hx]
  have eu : deriveColumn (h r).usd (toRateDict rows) "EUR" = Except.error "EUR" :=
    deriveColumn_err _ _ _ hu he
  simp only [runTransform, deriveColumn_ok _ _ _ _ hg, e1, eu]

/-! ## C1: the transformer adds exactly the three derived columns -/

/-- C1: with all three currency keys present, `transform` keeps the
`Name` and `MC_USD_Billion` columns (hence cardinality and order) and
adds exactly the three derived columns, each entry being
`round2 (usd * rate)`; no row is reordered or filtered. -/
theorem transform_adds_currency_columns (h : Heap) (r : ℕ) (rows : List (String × ℚ))
    (g e i : ℚ)
    (hg : toRateDict rows "GBP" = some g) (he : toRateDict rows "EUR" = some e)
    (hi : toRateDict rows "INR" = some i) (hx : (h r).extra = []) :
    (runTransform h r rows).2 = Except.ok r ∧
    ((runTransform h r rows).1 r).names = (h r).names ∧
    ((runTransform h r rows).1 r).usd = (h r).usd ∧
    ((runTransform h r rows).1 r).extra =
      [("MC_GBP_Billion", (h r).usd.map (fun x => round2 (x * g))),
       ("MC_EUR_Billion", (h r).usd.map (fun x => round2 (x * e))),
       ("MC_INR_Billion", (h r).usd.map (fun x => round2 (x * i)))] := by
  rw [runTransform_ok_spec h r rows g e i hg he hi hx]
  refine ⟨rfl, ?_, ?_, ?_⟩ <;> simp [hUpdate]

/-- Witness for C1 on a concrete heap and rate file. -/
theorem transform_adds_currency_columns_witness :
    toRateDict ratesFull "GBP" = some 2 ∧
    toRateDict ratesFull "EUR" = some (1 / 2) ∧
    toRateDict ratesFull "INR" = some 10 ∧
    (heapA 0).extra = [] ∧
    ((runTransform heapA 0 ratesFull).2 = Except.ok 0 ∧
     ((runTransform heapA 0 ratesFull).1 0).names = (heapA 0).names ∧
     ((runTransform heapA 0 ratesFull).1 0).usd = (heapA 0).usd ∧
     ((runTransform heapA 0 ratesFull).1 0).extra =
       [("MC_GBP_Billion", (heapA 0).usd.map (fun x => round2 (x * 2))),
        ("MC_EUR_Billion", (heapA 0).usd.map (fun x => round2 (x * (1 / 2)))),
        ("MC_INR_Billion", (heapA 0).usd.map (fun x => round2 (x * 10)))]) :=
  ⟨rfl, rfl, rfl, rfl,
   transform_adds_currency_columns heapA 0 ratesFull 2 (1 / 2) 10 rfl rfl rfl rfl⟩

/-! ## C5: the transformer is not pure — it mutates its input -/

/-- C5 counterexample: on a concrete heap, `transform` returns the very
reference it was given, and the object behind that reference has
changed — the input DataFrame is mutated in place, not copied. -/
theorem transform_not_pure_cex :
    (runTransform heapA 0 ratesFull).2 = Except.ok 0 ∧
    (runTransform heapA 0 ratesFull).1 0 ≠ heapA 0 := by
  have hs := runTransform_ok_spec heapA 0 ratesFull 2 (1 / 2) 10 rfl rfl rfl rfl
  rw [hs]
  refine ⟨rfl, ?_⟩
  intro heq
  have hex := congrArg DataFrame.extra heq
  simp [hUpdate, heapA, dfA] at hex

/-- C5 amended: `transform` computes its result from its explicit
inputs, but it adds the derived columns to its input DataFrame in place
and returns the same reference rather than a new value; after the call
the input object holds the enriched table. -/
theorem transform_mutates_in_place (h : Heap) (r : ℕ) (rows : List (String × ℚ))
    (g e i : ℚ)
    (hg : toRateDict rows "GBP" = some g) (he : toRateDict rows "EUR" = some e)
    (hi : toRateDict rows "INR" = some i) (hx : (h r).extra = []) :
    (runTransform h r rows).2 = Except.ok r ∧
    (runTransform h r rows).1 r ≠ h r := by
  rw [runTransform_ok_spec h r rows g e i hg he hi hx]
  refine ⟨rfl, ?_⟩
  intro heq
  have hex := congrArg DataFrame.extra heq
  simp [hUpdate, hx] at hex

/-- Witness for the amended C5 on a concrete heap and rate file. -/
theorem transform_mutates_in_place_witness :
    toRateDict ratesFull "GBP" = some 2 ∧
    toRateDict ratesFull "EUR" = some (1 / 2) ∧
    toRateDict ratesFull "INR" = some 10 ∧
    (heapA 0).extra = [] ∧
    ((runTransform heapA 0 ratesFull).2 = Except.ok 0 ∧
     (runTransform heapA 0 ratesFull).1 0 ≠ heapA 0) :=
  ⟨rfl, rfl, rfl, rfl,
   transform_mutates_in_place heapA 0 ratesFull 2 (1 / 2) 10 rfl rfl rfl rfl⟩

/-! ## C3: a missing rate key aborts, but partial output remains -/

/-- C3 counterexample, on the spec's own example (a rate table holding
only GBP): the run does fail with `KeyError "EUR"`, but the GBP column
has already been added to the input records — the input record set is
not unchanged, partial output is visible. -/
theorem transform_missing_key_cex :
    (runTransform heapA 0 ratesGBPOnly).2 = Except.error "EUR" ∧
    ((runTransform heapA 0 ratesGBPOnly).1 0).extra ≠ [] ∧
    (runTransform heapA 0 ratesGBPOnly).1 0 ≠ heapA 0 := by
  have hs := runTransform_eur_missing_spec heapA 0 ratesGBPOnly 2 rfl rfl
    (by simp [heapA, dfA]) rfl
  rw [hs]
  refine ⟨rfl, ?_, ?_⟩
  · simp [hUpdate, heapA, dfA]
  · intro heq
    have hex := congrArg DataFrame.extra heq
    simp [hUpdate, heapA, dfA] at hex

/-- C3 amended: when GBP is present but EUR is absent and the input is
nonempty, `transform` raises `KeyError "EUR"` (ConfigError); the columns
assigned before the failure — here the GBP column — remain added to the
input records, so partial output survives the error. -/
theorem transform_missing_key_keeps_partial (h : Heap) (r : ℕ)
    (rows : List (String × ℚ)) (g : ℚ)
    (hg : toRateDict rows "GBP" = some g) (he : toRateDict rows "EUR" = none)
    (hu : (h r).usd ≠ []) (hx : (h r).extra = []) :
    (runTransform h r rows).2 = Except.error "EUR" ∧
    ((runTransform h r rows).1 r).names = (h r).names ∧
    ((runTransform h r rows).1 r).usd = (h r).usd ∧
    ((runTransform h r rows).1 r).extra =
      [("MC_GBP_Billion", (h r).usd.map (fun x => round2 (x * g)))] := by
  rw [runTransform_eur_missing_spec h r rows g hg he hu hx]
  refine ⟨rfl, ?_, ?_, ?_⟩ <;> simp [hUpdate]

/-- Witness for the amended C3 on the spec's GBP-only rate table. -/
theorem transform_missing_key_keeps_partial_witness :
    toRateDict ratesGBPOnly "GBP" = some 2 ∧
    toRateDict ratesGBPOnly "EUR" = none ∧
    (heapA 0).usd ≠ [] ∧
    (heapA 0).extra = [] ∧
    ((runTransform heapA 0 ratesGBPOnly).2 = Except.error "EUR" ∧
     ((runTransform heapA 0 ratesGBPOnly).1 0).names = (heapA 0).names ∧
     ((runTransform heapA 0 ratesGBPOnly).1 0).usd = (heapA 0).usd ∧
     ((runTransform heapA 0 ratesGBPOnly).1 0).extra =
       [("MC_GBP_Billion", (heapA 0).usd.map (fun x => round2 (x * 2)))]) :=
  ⟨rfl, rfl, by simp [heapA, dfA], rfl,
   transform_missing_key_keeps_partial heapA 0 ratesGBPOnly 2 rfl rfl
     (by simp [heapA, dfA]) rfl⟩

/-! ## C8: the spec's worked numeric example -/

/-- Off a tie, half-to-even rounding is the floor of the lower window. -/
theorem rint_eq_of_lt (q : ℚ) (n : ℤ) (h1 : (n : ℚ) ≤ q) (h2 : q < (n : ℚ) + 1 / 2) :
    rint q = n := by
  have hf : ⌊q⌋ = n := Int.floor_eq_iff.mpr ⟨h1, by linarith⟩
  unfold rint
  rw [hf, if_pos (by linarith)]

/-- At a tie with an even lower neighbour, half-to-even rounds down. -/
theorem rint_tie_even (q : ℚ) (n : ℤ) (h : q = (n : ℚ) + 1 / 2) (he : 2 ∣ n) :
    rint q = n := by
  have hf : ⌊q⌋ = n := by
    refine Int.floor_eq_iff.mpr ⟨by rw [h]; linarith, ?_⟩
    rw [h]
    linarith
  unfold rint
  rw [hf, if_neg (by rw [h]; linarith),
    if_neg (by rw [h]; linarith), if_pos he]

/-- Evaluation of `round2` below a tie. -/
theorem round2_eval_lt (x : ℚ) (n : ℤ) (h1 : (n : ℚ) ≤ x * 100)
    (h2 : x * 100 < (n : ℚ) + 1 / 2) : round2 x = (n : ℚ) / 100 := by
  unfold round2
  rw [rint_eq_of_lt (x * 100) n h1 h2]

/-- Evaluation of `round2` at a tie with an even scaled floor. -/
theorem round2_eval_tie (x : ℚ) (n : ℤ) (h : x * 100 = (n : ℚ) + 1 / 2) (he : 2 ∣ n) :
    round2 x = (n : ℚ) / 100 := by
  unfold round2
  rw [rint_tie_even (x * 100) n h he]

/-- The program's output on the spec's example input: the scaled EUR
value of BankB, `50.25 * 0.9 * 100 = 4522.5`, is an exact tie and
rounds half-to-even to `4522`, giving `45.22`. -/
theorem transform_banks_eval :
    (runTransform heapBanks 0 ratesExample).2 = Except.ok 0 ∧
    (runTransform heapBanks 0 ratesExample).1 0 = enrichedBanks := by
  have r1 : round2 ((201 : ℚ) / 2 * (4 / 5)) = 402 / 5 := by
    rw [round2_eval_lt ((201 : ℚ) / 2 * (4 / 5)) 8040 (by norm_num) (by norm_num)]
    norm_num
  have r2 : round2 ((201 : ℚ) / 4 * (4 / 5)) = 201 / 5 := by
    rw [round2_eval_lt ((201 : ℚ) / 4 * (4 / 5)) 4020 (by norm_num) (by norm_num)]
    norm_num
  have r3 : round2 ((201 : ℚ) / 2 * (9 / 10)) = 1809 / 20 := by
    rw [round2_eval_lt ((201 : ℚ) / 2 * (9 / 10)) 9045 (by norm_num) (by norm_num)]
    norm_num
  have r4 : round2 ((201 : ℚ) / 4 * (9 / 10)) = 2261 / 50 := by
    rw [round2_eval_tie ((201 : ℚ) / 4 * (9 / 10)) 4522 (by norm_num) (by norm_num)]
    norm_num
  have r5 : round2 ((201 : ℚ) / 2 * 80) = 8040 := by
    rw [round2_eval_lt ((201 : ℚ) / 2 * 80) 804000 (by norm_num) (by norm_num)]
    norm_num
  have r6 : round2 ((201 : ℚ) / 4 * 80) = 4020 := by
    rw [round2_eval_lt ((201 : ℚ) / 4 * 80) 402000 (by norm_num) (by norm_num)]
    norm_num
  have hs := runTransform_ok_spec heapBanks 0 ratesExample (4 / 5) (9 / 10) 80
    rfl rfl rfl rfl
  rw [hs]
  refine ⟨rfl, ?_⟩
  simp only [hUpdate, heapBanks, dfBanks, enrichedBanks, if_pos, List.map_cons,
    List.map_nil, r1, r2, r3, r4, r5, r6]

/-- C8 counterexample: on the spec's example input the transformer
does not produce the claimed record set — the program computes
`round2 (50.25 * 0.9) = 45.22`, while the claim's record set shows
`45.23` for BankB's EUR value. -/
theorem transform_concrete_example_cex :
    (runTransform heapBanks 0 ratesExample).2 = Except.ok 0 ∧
    (runTransform heapBanks 0 ratesExample).1 0 ≠
      { names := ["BankA", "BankB"], usd := [201 / 2, 201 / 4],
        extra := [("MC_GBP_Billion", [402 / 5, 201 / 5]),
                  ("MC_EUR_Billion", [1809 / 20, 4523 / 100]),
                  ("MC_INR_Billion", [8040, 4020])] } ∧
    round2 ((201 : ℚ) / 4 * (9 / 10)) = 2261 / 50 ∧
    (2261 : ℚ) / 50 ≠ 4523 / 100 := by
  obtain ⟨h1, h2⟩ := transform_banks_eval
  refine ⟨h1, ?_, ?_, by norm_num⟩
  · rw [h2]
    intro heq
    have hex := congrArg DataFrame.extra heq
    simp only [enrichedBanks, List.cons.injEq, Prod.mk.injEq] at hex
    norm_num at hex
  · rw [round2_eval_tie ((201 : ℚ) / 4 * (9 / 10)) 4522 (by norm_num) (by norm_num)]
    norm_num

/-- C8 amended: on the input rows `[("BankA","100.5"),("BankB","50.25")]`
with rates `{GBP:0.8, EUR:0.9, INR:80.0}` the transformer produces
exactly the record set `{BankA: 100.5, 80.4, 90.45, 8040.0}` and
`{BankB: 50.25, 40.2, 45.22, 4020.0}`, in that order: `np.round`
scales by 100 in doubles, where `50.25 * 0.9 * 100` is exactly the
tie `4522.5`, and rounds it half-to-even to `45.22` — not the `45.23`
of the spec's example. -/
theorem transform_concrete_example :
    (runTransform heapBanks 0 ratesExample).2 = Except.ok 0 ∧
    (runTransform heapBanks 0 ratesExample).1 0 =
      { names := ["BankA", "BankB"], usd := [201 / 2, 201 / 4],
        extra := [("MC_GBP_Billion", [402 / 5, 201 / 5]),
                  ("MC_EUR_Billion", [1809 / 20, 2261 / 50]),
                  ("MC_INR_Billion", [8040, 4020])] } :=
  ⟨transform_banks_eval.1, transform_banks_eval.2⟩

/-! ## Decimal digit and formatting lemmas -/

/-- Unfolding lemma for the little-endian digit value. -/
theorem valLE_cons (d : ℕ) (ds : List ℕ) : valLE (d :: ds) = d + 10 * valLE ds := rfl

/-- With enough fuel, the digit list evaluates back to the number. -/
theorem valLE_natDigitsAux (fuel : ℕ) : ∀ n, n ≤ fuel → valLE (natDigitsAux fuel n) = n := by
  induction fuel with
  | zero =>
    intro n hn
    have : n = 0 := by omega
    subst this
    rfl
  | succ f ih =>
    intro n hn
    by_cases h0 : n = 0
    · subst h0; simp [natDigitsAux, valLE]
    · have hdiv : n / 10 ≤ f := by
        have : n / 10 < n := Nat.div_lt_self (Nat.pos_of_ne_zero h0) (by norm_num)
        omega
      simp only [natDigitsAux, if_neg h0]
      rw [valLE_cons, ih (n / 10) hdiv]
      omega

/-- Digits produced by the digit fold are below 10. -/
theorem natDigitsAux_lt10 (fuel : ℕ) : ∀ n d, d ∈ natDigitsAux fuel n → d < 10 := by
  induction fuel with
  | zero => intro n d hd; simp [natDigitsAux] at hd
  | succ f ih =>
    intro n d hd
    by_cases h0 : n = 0
    · subst h0; simp [natDigitsAux] at hd
    · simp only [natDigitsAux, if_neg h0, List.mem_cons] at hd
      rcases hd with h | h
      · subst h; exact Nat.mod_lt _ (by norm_num)
      · exact ih _ _ h

/-- A number below `10 ^ k` has at most `k` digits. -/
theorem natDigitsAux_length (fuel : ℕ) : ∀ n k, n < 10 ^ k → (natDigitsAux fuel n).length ≤ k := by
  induction fuel with
  | zero => intro n k _; simp [natDigitsAux]
  | succ f ih =>
    intro n k hk
    by_cases h0 : n = 0
    · subst h0; simp [natDigitsAux]
    · simp only [natDigitsAux, if_neg h0, List.length_cons]
      have hk1 : 1 ≤ k := by
        by_contra hlt
        push_neg at hlt
        have : k = 0 := by omega
        subst this
        simp at hk
        omega
      have hstep : n / 10 < 10 ^ (k - 1) := by
        rw [Nat.div_lt_iff_lt_mul (by norm_num)]
        calc n < 10 ^ k := hk
          _ = 10 ^ (k - 1) * 10 := by
              rw [← pow_succ]
              congr 1
              omega
      have hlen := ih (n / 10) (k - 1) hstep
      omega

/-- The digit list of `n` evaluates to `n`. -/
theorem valLE_natDigits (n : ℕ) : valLE (natDigits n) = n :=
  valLE_natDigitsAux n n le_rfl

/-- Digit characters decode to their digit. -/
theorem digitVal_digitChar : ∀ d, d < 10 → digitVal (digitChar d) = d := by decide

/-- Digit characters satisfy `Char.isDigit`. -/
theorem digitChar_isDigit : ∀ d, d < 10 → (digitChar d).isDigit = true := by decide

/-- Appending one character multiplies the big-endian value by ten. -/
theorem digitsToNat_append (xs : List Char) (c : Char) :
    digitsToNat (xs ++ [c]) = 10 * digitsToNat xs + digitVal c := by
  simp [digitsToNat, List.foldl_append]

/-- Reversed little-endian digits rendered as characters evaluate to
the same value as the digit list. -/
theorem digitsToNat_rev_map (ds : List ℕ) (h : ∀ d ∈ ds, d < 10) :
    digitsToNat ((ds.map digitChar).reverse) = valLE ds := by
  induction ds with
  | nil => rfl
  | cons d t ih =>
    simp only [List.map_cons, List.reverse_cons]
    rw [digitsToNat_append, ih (fun x hx => h x (by simp [hx])),
      digitVal_digitChar d (h d (by simp)), valLE_cons]
    ring

/-- Decimal rendering round-trips through the digit fold. -/
theorem digitsToNat_natToChars (n : ℕ) : digitsToNat (natToChars n) = n := by
  by_cases h0 : n = 0
  · subst h0; rfl
  · simp only [natToChars, if_neg h0]
    rw [List.map_reverse,
      digitsToNat_rev_map (natDigits n) (fun d hd => natDigitsAux_lt10 n n d hd)]
    exact valLE_natDigits n

/-- The decimal rendering is never empty. -/
theorem natToChars_ne_nil (n : ℕ) : natToChars n ≠ [] := by
  by_cases h0 : n = 0
  · subst h0; simp [natToChars]
  · simp only [natToChars, if_neg h0]
    intro hc
    have hlen : (natDigits n).length = 0 := by simpa using congrArg List.length hc
    obtain ⟨m, rfl⟩ := Nat.exists_eq_succ_of_ne_zero h0
    simp [natDigits, natDigitsAux] at hlen

/-- A number below `10 ^ k`, `k ≥ 1`, renders in at most `k` characters. -/
theorem natToChars_length_le (n k : ℕ) (h1 : 1 ≤ k) (h2 : n < 10 ^ k) :
    (natToChars n).length ≤ k := by
  by_cases h0 : n = 0
  · subst h0; simpa [natToChars] using h1
  · simp only [natToChars, if_neg h0, List.length_reverse, List.length_map]
    exact natDigitsAux_length n n k h2

/-- Every character of the decimal rendering is a digit. -/
theorem natToChars_isDigit (n : ℕ) (c : Char) (hc : c ∈ natToChars n) : c.isDigit = true := by
  by_cases h0 : n = 0
  · subst h0
    simp [natToChars] at hc
    subst hc
    decide
  · simp only [natToChars, if_neg h0, List.mem_reverse, List.mem_map] at hc
    obtain ⟨d, hd, rfl⟩ := hc
    exact digitChar_isDigit d (natDigitsAux_lt10 n n d (by simpa [natDigits] using hd))

/-- Leading zeros do not change the big-endian value. -/
theorem digitsToNat_replicate (j : ℕ) (cs : List Char) :
    digitsToNat (List.replicate j '0' ++ cs) = digitsToNat cs := by
  have hz : ∀ i, List.foldl (fun a c => 10 * a + digitVal c) 0 (List.replicate i '0') = 0 := by
    intro i
    induction i with
    | zero => rfl
    | succ m ih => simpa [List.replicate_succ, digitVal] using ih
  simp [digitsToNat, List.foldl_append, hz j]

/-- A successful exponent search returns a valid exponent. -/
theorem findExpAux_dvd : ∀ fuel d k k0, findExpAux fuel d k = some k0 → d ∣ 10 ^ k0 := by
  intro fuel
  induction fuel with
  | zero => intro d k k0 h; simp [findExpAux] at h
  | succ f ih =>
    intro d k k0 h
    by_cases hdv : d ∣ 10 ^ k
    · simp only [findExpAux, if_pos hdv, Option.some.injEq] at h
      subst h
      exact hdv
    · simp only [findExpAux, if_neg hdv] at h
      exact ih _ _ _ h

/-- The exponent search succeeds whenever a valid exponent lies within
the fuel window, and returns one no larger. -/
theorem findExpAux_complete : ∀ fuel d k K, k ≤ K → K < k + fuel → d ∣ 10 ^ K →
    ∃ k0, findExpAux fuel d k = some k0 ∧ k0 ≤ K := by
  intro fuel
  induction fuel with
  | zero => intro d k K h1 h2 _; omega
  | succ f ih =>
    intro d k K h1 h2 hdv
    by_cases hk : d ∣ 10 ^ k
    · exact ⟨k, by simp [findExpAux, hk], h1⟩
    · have hne : k ≠ K := fun he => hk (he ▸ hdv)
      obtain ⟨k0, h3, h4⟩ := ih d (k + 1) K (by omega) (by omega) hdv
      refine ⟨k0, ?_, h4⟩
      simp only [findExpAux, if_neg hk]
      exact h3

/-- For a denominator with a terminating decimal expansion, `findExp`
succeeds and the result is valid. -/
theorem findExp_isDecimal (d : ℕ) (hd : 1 ≤ d) (hdv : d ∣ 10 ^ d) :
    ∃ k0, findExp d = some k0 ∧ d ∣ 10 ^ k0 := by
  obtain ⟨k0, h1, _⟩ := findExpAux_complete (d + 1) d 0 d (by omega) (by omega) hdv
  exact ⟨k0, h1, findExpAux_dvd _ _ _ _ h1⟩

/-- A divisor of 100 gets an exponent of at most two. -/
theorem findExp_le_two (d : ℕ) (hd : 1 ≤ d) (hdv : d ∣ 100) :
    ∃ k0, findExp d = some k0 ∧ k0 ≤ 2 ∧ d ∣ 10 ^ k0 := by
  have hle : d ≤ 100 := Nat.le_of_dvd (by norm_num) hdv
  have hall : ∀ e, e < 101 → e ∣ 100 → 1 ≤ e →
      ((findExp e).isSome = true ∧ (findExp e).getD 3 ≤ 2) := by decide
  have h := hall d (by omega) hdv hd
  cases hf : findExp d with
  | none => rw [hf] at h; simp at h
  | some k0 =>
    rw [hf] at h
    exact ⟨k0, rfl, by simpa using h.2, findExpAux_dvd _ _ _ _ hf⟩

/-- A digit character is not the decimal dot. -/
theorem isDigit_ne_dot {c : Char} (h : c.isDigit = true) : c ≠ '.' := by
  intro hc; subst hc; exact absurd h (by decide)

/-- A digit character is not a sign. -/
theorem isDigit_ne_dash {c : Char} (h : c.isDigit = true) : c ≠ '-' := by
  intro hc; subst hc; exact absurd h (by decide)

/-- A digit character is not a plus sign. -/
theorem isDigit_ne_plus {c : Char} (h : c.isDigit = true) : c ≠ '+' := by
  intro hc; subst hc; exact absurd h (by decide)

/-- A digit character needs no CSV quoting. -/
theorem isDigit_not_special {c : Char} (h : c.isDigit = true) : specialChar c = false := by
  have h1 : c ≠ ',' := by intro hc; subst hc; exact absurd h (by decide)
  have h2 : c ≠ '"' := by intro hc; subst hc; exact absurd h (by decide)
  have h3 : c ≠ '\n' := by intro hc; subst hc; exact absurd h (by decide)
  have h4 : c ≠ '\r' := by intro hc; subst hc; exact absurd h (by decide)
  simp [specialChar, beq_eq_false_iff_ne.mpr h1, beq_eq_false_iff_ne.mpr h2,
    beq_eq_false_iff_ne.mpr h3, beq_eq_false_iff_ne.mpr h4]

/-- Scaling a rational by a power of ten that clears its denominator
gives an integer. -/
theorem rat_mul_pow_int (a : ℚ) (k m : ℕ) (hm : 10 ^ k = a.den * m) :
    a * (10 : ℚ) ^ k = ((a.num * (m : ℤ) : ℤ) : ℚ) := by
  have hden : ((a.den : ℚ)) ≠ 0 := by exact_mod_cast a.pos.ne'
  have h2 : (a.num : ℚ) = a * (a.den : ℚ) := (Rat.mul_den_eq_num a).symm
  have h1 : ((10 : ℚ)) ^ k = ((a.den : ℚ)) * (m : ℚ) := by
    have hq : ((10 ^ k : ℕ) : ℚ) = ((a.den * m : ℕ) : ℚ) := by exact_mod_cast hm
    push_cast at hq
    linarith
  rw [h1]
  push_cast
  rw [← mul_assoc, ← h2]

/-- Characters before the dot are untouched by the integer-part scan. -/
theorem takeWhile_no_dot (l1 l2 : List Char) (h : ∀ c ∈ l1, c ≠ '.') :
    (l1 ++ '.' :: l2).takeWhile (fun c => c ≠ '.') = l1 := by
  induction l1 with
  | nil => simp
  | cons c t ih =>
    have hc : c ≠ '.' := h c (by simp)
    rw [List.cons_append, List.takeWhile_cons, if_pos (by simpa using hc),
      ih (fun x hx => h x (by simp [hx]))]

/-- The fractional-part scan starts exactly at the dot. -/
theorem dropWhile_no_dot (l1 l2 : List Char) (h : ∀ c ∈ l1, c ≠ '.') :
    (l1 ++ '.' :: l2).dropWhile (fun c => c ≠ '.') = '.' :: l2 := by
  induction l1 with
  | nil => simp
  | cons c t ih =>
    have hc : c ≠ '.' := h c (by simp)
    rw [List.cons_append, List.dropWhile_cons, if_pos (by simpa using hc),
      ih (fun x hx => h x (by simp [hx]))]

/-- The unsigned parse of digits, dot, digits recovers both digit
groups. -/
theorem parseUnsigned_split (ip fp : List Char) (h1 : ∀ c ∈ ip, c ≠ '.')
    (h2 : ip ≠ [] ∨ fp ≠ []) (h3 : ip.all Char.isDigit = true)
    (h4 : fp.all Char.isDigit = true) :
    parseUnsigned (ip ++ '.' :: fp) =
      some ((digitsToNat ip : ℚ) + (digitsToNat fp : ℚ) / 10 ^ fp.length) := by
  simp only [parseUnsigned]
  rw [takeWhile_no_dot _ _ h1, dropWhile_no_dot _ _ h1]
  simp only []
  rw [if_pos ⟨h2, h3, h4⟩]

/-- The decimal rendering of a nonnegative decimal rational parses
back to exactly that rational. -/
theorem parseUnsigned_formatNonneg (a : ℚ) (h0 : 0 ≤ a) (hdec : a.den ∣ 10 ^ a.den) :
    parseUnsigned (formatNonneg a) = some a := by
  obtain ⟨k0, hfind, hdvd0⟩ := findExp_isDecimal a.den a.pos hdec
  simp only [formatNonneg, hfind]
  set k := max 1 k0 with hkdef
  have hk1 : 1 ≤ k := le_max_left 1 k0
  have hdvd : a.den ∣ 10 ^ k := hdvd0.trans (pow_dvd_pow 10 (le_max_right 1 k0))
  obtain ⟨m, hm⟩ := hdvd
  have hMul : a * (10 : ℚ) ^ k = ((a.num * (m : ℤ) : ℤ) : ℚ) := rat_mul_pow_int a k m hm
  have hnum : (a * (10 : ℚ) ^ k).num = a.num * (m : ℤ) := by rw [hMul]; exact Rat.intCast_num _
  have hnn : 0 ≤ a.num * (m : ℤ) := mul_nonneg (Rat.num_nonneg.mpr h0) (by positivity)
  set N := (a * (10 : ℚ) ^ k).num.toNat with hNdef
  have hNZ : ((N : ℤ)) = a.num * (m : ℤ) := by
    rw [hNdef, hnum]
    exact Int.toNat_of_nonneg hnn
  have hNQ : ((N : ℕ) : ℚ) = a * (10 : ℚ) ^ k := by
    rw [hMul]
    exact_mod_cast hNZ
  have hipnd : ∀ c ∈ natToChars (N / 10 ^ k), c ≠ '.' :=
    fun c hc => isDigit_ne_dot (natToChars_isDigit _ c hc)
  have hlenf : (natToChars (N % 10 ^ k)).length ≤ k :=
    natToChars_length_le _ k hk1 (Nat.mod_lt _ (by positivity))
  rw [parseUnsigned_split _ _ hipnd (Or.inl (natToChars_ne_nil _))
    (List.all_eq_true.mpr (fun c hc => natToChars_isDigit _ c hc))
    (List.all_eq_true.mpr (fun c hc => by
      rcases List.mem_append.mp hc with h | h
      · have := List.eq_of_mem_replicate h
        subst this
        decide
      · exact natToChars_isDigit _ c h))]
  congr 1
  rw [digitsToNat_natToChars, digitsToNat_replicate, digitsToNat_natToChars]
  have hflen : (List.replicate (k - (natToChars (N % 10 ^ k)).length) '0' ++
      natToChars (N % 10 ^ k)).length = k := by
    simp [List.length_append, List.length_replicate]
    omega
  rw [hflen]
  have h10 : ((10 : ℚ)) ^ k ≠ 0 := by positivity
  have hdm : N / 10 ^ k * 10 ^ k + N % 10 ^ k = N := by
    rw [mul_comm]
    exact Nat.div_add_mod N (10 ^ k)
  field_simp
  rw [← hNQ]
  exact_mod_cast hdm

/-- The decimal rendering is nonempty and starts with a digit. -/
theorem formatNonneg_head (a : ℚ) :
    ∃ c t, formatNonneg a = c :: t ∧ (a.den ∣ 10 ^ a.den → c.isDigit = true) := by
  cases hfind : findExp a.den with
  | none =>
    refine ⟨'N', ['a', 'N'], by simp [formatNonneg, hfind], fun hdec => ?_⟩
    obtain ⟨k0, h1, _⟩ := findExp_isDecimal a.den a.pos hdec
    rw [hfind] at h1
    exact absurd h1 (by simp)
  | some k0 =>
    have hne := natToChars_ne_nil ((a * (10 : ℚ) ^ max 1 k0).num.toNat / 10 ^ max 1 k0)
    cases hnc : natToChars ((a * (10 : ℚ) ^ max 1 k0).num.toNat / 10 ^ max 1 k0) with
    | nil => exact absurd hnc hne
    | cons c0 t0 =>
      refine ⟨c0, t0 ++ '.' :: (List.replicate (max 1 k0 -
        (natToChars ((a * (10 : ℚ) ^ max 1 k0).num.toNat % 10 ^ max 1 k0)).length) '0' ++
        natToChars ((a * (10 : ℚ) ^ max 1 k0).num.toNat % 10 ^ max 1 k0)), ?_, fun _ => ?_⟩
      · simp [formatNonneg, hfind, hnc]
      · exact natToChars_isDigit _ c0 (by rw [hnc]; simp)

/-- Round trip of the float rendering through Python `float()`: the
model of `repr` followed by the model of `float` is the identity on
decimal rationals. -/
theorem parseFloat_formatFloat (q : ℚ) (hdec : IsDecimalQ q) :
    parseFloat (formatFloat q) = some q := by
  by_cases hq : q < 0
  · have hpos : 0 ≤ -q := by linarith
    have hden : (-q).den = q.den := Rat.neg_den q
    show parseFloatChars (formatFloatChars q) = some q
    simp only [formatFloatChars, if_pos hq]
    simp only [parseFloatChars, if_pos rfl]
    rw [parseUnsigned_formatNonneg (-q) hpos (by rw [hden]; exact hdec)]
    simp
  · have hq' : 0 ≤ q := by linarith
    show parseFloatChars (formatFloatChars q) = some q
    simp only [formatFloatChars, if_neg hq]
    obtain ⟨c, t, hct, hdig⟩ := formatNonneg_head q
    have hc := hdig hdec
    rw [hct]
    simp only [parseFloatChars, if_neg (isDigit_ne_dash hc), if_neg (isDigit_ne_plus hc)]
    rw [← hct]
    exact parseUnsigned_formatNonneg q hq' hdec

/-! ## The CSV reader machine -/

/-- A non-special character is none of the four CSV control characters. -/
theorem not_special_ne {c : Char} (h : specialChar c = false) :
    c ≠ ',' ∧ c ≠ '"' ∧ c ≠ '\n' ∧ c ≠ '\r' := by
  have h2 : ((¬c = ',' ∧ ¬c = '"') ∧ ¬c = '\n') ∧ ¬c = '\r' := by
    simpa [specialChar] using h
  exact ⟨h2.1.1.1, h2.1.1.2, h2.1.2, h2.2⟩

/-- A comma in a non-quoted mode flushes the current field. -/
theorem csvStep_comma (st : CSVState)
    (hm : st.mode = CSVMode.atStart ∨ st.mode = CSVMode.inField ∨
      st.mode = CSVMode.afterQuote) :
    csvStep st ',' =
      { mode := CSVMode.atStart, field := [],
        row := st.row ++ [String.mk st.field], rows := st.rows } := by
  rcases hm with h | h | h <;> · cases st; simp_all [csvStep]

/-- A newline in a non-quoted mode flushes field and row. -/
theorem csvStep_newline (st : CSVState)
    (hm : st.mode = CSVMode.atStart ∨ st.mode = CSVMode.inField ∨
      st.mode = CSVMode.afterQuote) :
    csvStep st '\n' =
      { mode := CSVMode.atStart, field := [], row := [],
        rows := st.rows ++ [st.row ++ [String.mk st.field]] } := by
  rcases hm with h | h | h <;> · cases st; simp_all [csvStep]

/-- An ordinary character extends the current unquoted field. -/
theorem csvStep_inField (c : Char) (h1 : c ≠ ',') (h2 : c ≠ '\n')
    (f : List Char) (row : List String) (rows : List (List String)) :
    csvStep ⟨CSVMode.inField, f, row, rows⟩ c = ⟨CSVMode.inField, f ++ [c], row, rows⟩ := by
  simp [csvStep, h1, h2]

/-- An ordinary character opens an unquoted field. -/
theorem csvStep_atStart_other (c : Char) (h0 : c ≠ '"') (h1 : c ≠ ',') (h2 : c ≠ '\n')
    (f : List Char) (row : List String) (rows : List (List String)) :
    csvStep ⟨CSVMode.atStart, f, row, rows⟩ c = ⟨CSVMode.inField, f ++ [c], row, rows⟩ := by
  simp [csvStep, h0, h1, h2]

/-- Inside quotes, an ordinary character is data. -/
theorem csvStep_inQuotes_other (c : Char) (h : c ≠ '"')
    (f : List Char) (row : List String) (rows : List (List String)) :
    csvStep ⟨CSVMode.inQuotes, f, row, rows⟩ c = ⟨CSVMode.inQuotes, f ++ [c], row, rows⟩ := by
  simp [csvStep, h]

/-- Running over an unquoted field body stays in `inField`. -/
theorem run_inField (cs : List Char) (h : ∀ c ∈ cs, c ≠ ',' ∧ c ≠ '\n') :
    ∀ f (row : List String) (rows : List (List String)),
      List.foldl csvStep ⟨CSVMode.inField, f, row, rows⟩ cs =
        ⟨CSVMode.inField, f ++ cs, row, rows⟩ := by
  induction cs with
  | nil => intro f row rows; simp
  | cons c t ih =>
    intro f row rows
    obtain ⟨h1, h2⟩ := h c (by simp)
    rw [List.foldl_cons, csvStep_inField c h1 h2,
      ih (fun x hx => h x (by simp [hx]))]
    simp

/-- Running over escaped quoted content stays in `inQuotes` and
recovers the unescaped content. -/
theorem run_inQuotes (cs : List Char) :
    ∀ f (row : List String) (rows : List (List String)),
      List.foldl csvStep ⟨CSVMode.inQuotes, f, row, rows⟩ (escapeChars cs) =
        ⟨CSVMode.inQuotes, f ++ cs, row, rows⟩ := by
  induction cs with
  | nil => intro f row rows; simp [escapeChars]
  | cons c t ih =>
    intro f row rows
    by_cases hc : c = '"'
    · subst hc
      rw [show escapeChars ('"' :: t) = '"' :: '"' :: escapeChars t from by
        simp [escapeChars]]
      rw [List.foldl_cons, List.foldl_cons]
      have s1 : csvStep ⟨CSVMode.inQuotes, f, row, rows⟩ '"' =
          ⟨CSVMode.afterQuote, f, row, rows⟩ := by simp [csvStep]
      have s2 : csvStep ⟨CSVMode.afterQuote, f, row, rows⟩ '"' =
          ⟨CSVMode.inQuotes, f ++ ['"'], row, rows⟩ := by simp [csvStep]
      rw [s1, s2, ih]
      simp
    · simp only [escapeChars, if_neg hc]
      rw [List.foldl_cons, csvStep_inQuotes_other c hc, ih]
      simp

/-- Running the machine over one serialized field from the start of a
field ends with the field text recovered and a flushable mode. -/
theorem run_field (s : String) (row : List String) (rows : List (List String)) :
    ∃ st : CSVState,
      List.foldl csvStep ⟨CSVMode.atStart, [], row, rows⟩ (serializeFieldChars s) = st ∧
      st.row = row ∧ st.rows = rows ∧ String.mk st.field = s ∧
      (st.mode = CSVMode.atStart ∨ st.mode = CSVMode.inField ∨
        st.mode = CSVMode.afterQuote) := by
  by_cases hq : s.toList.any specialChar
  · refine ⟨⟨CSVMode.afterQuote, s.toList, row, rows⟩, ?_, rfl, rfl, rfl, by simp⟩
    simp only [serializeFieldChars, if_pos hq]
    rw [List.foldl_cons]
    have s0 : csvStep ⟨CSVMode.atStart, [], row, rows⟩ '"' =
        ⟨CSVMode.inQuotes, [], row, rows⟩ := by simp [csvStep]
    rw [s0, List.foldl_append, run_inQuotes s.toList [] row rows]
    simp [csvStep]
  · have hns : ∀ c ∈ s.toList, specialChar c = false := by
      intro c hc
      by_contra hbad
      exact hq (List.any_eq_true.mpr ⟨c, hc, by simpa using hbad⟩)
    simp only [serializeFieldChars, if_neg hq]
    cases hl : s.toList with
    | nil =>
      refine ⟨⟨CSVMode.atStart, [], row, rows⟩, by simp, rfl, rfl, ?_, by simp⟩
      rw [← hl]
      rfl
    | cons c t =>
      have hcs : specialChar c = false := hns c (by
        rw [show s.toList = c :: t from hl]
        simp)
      obtain ⟨hc1, hc2, hc3, _⟩ := not_special_ne hcs
      refine ⟨⟨CSVMode.inField, c :: t, row, rows⟩, ?_, rfl, rfl, ?_, by simp⟩
      · rw [List.foldl_cons, csvStep_atStart_other c hc2 hc1 hc3,
          run_inField t (fun x hx => by
            obtain ⟨a1, a2, a3, _⟩ := not_special_ne (hns x (by
              rw [show s.toList = c :: t from hl]
              simp [hx]))
            exact ⟨a1, a3⟩)]
        simp
      · rw [← hl]
        rfl

/-- One serialized field followed by a comma: the field joins the row. -/
theorem run_field_comma (s : String) (row : List String) (rows : List (List String)) :
    List.foldl csvStep ⟨CSVMode.atStart, [], row, rows⟩ (serializeFieldChars s ++ [',']) =
      ⟨CSVMode.atStart, [], row ++ [s], rows⟩ := by
  obtain ⟨st, h1, h2, h3, h4, h5⟩ := run_field s row rows
  rw [List.foldl_append, h1, List.foldl_cons, List.foldl_nil, csvStep_comma st h5,
    h2, h3, h4]

/-- One serialized field followed by a newline: field and row flush. -/
theorem run_field_newline (s : String) (row : List String) (rows : List (List String)) :
    List.foldl csvStep ⟨CSVMode.atStart, [], row, rows⟩ (serializeFieldChars s ++ ['\n']) =
      ⟨CSVMode.atStart, [], [], rows ++ [row ++ [s]]⟩ := by
  obtain ⟨st, h1, h2, h3, h4, h5⟩ := run_field s row rows
  rw [List.foldl_append, h1, List.foldl_cons, List.foldl_nil, csvStep_newline st h5,
    h2, h3, h4]

/-- One newline-terminated serialized row: its fields are recovered. -/
theorem run_row (fs : List String) (hne : fs ≠ []) :
    ∀ (row : List String) (rows : List (List String)),
      List.foldl csvStep ⟨CSVMode.atStart, [], row, rows⟩ (joinComma fs ++ ['\n']) =
        ⟨CSVMode.atStart, [], [], rows ++ [row ++ fs]⟩ := by
  induction fs with
  | nil => exact absurd rfl hne
  | cons f t ih =>
    intro row rows
    cases t with
    | nil => simpa [joinComma] using run_field_newline f row rows
    | cons g t2 =>
      have hsplit : (joinComma (f :: g :: t2) ++ ['\n']) =
          (serializeFieldChars f ++ [',']) ++ (joinComma (g :: t2) ++ ['\n']) := by
        simp [joinComma]
      rw [hsplit, List.foldl_append, run_field_comma, ih (by simp) (row ++ [f]) rows]
      simp

/-- The whole document: every serialized row is recovered, in order. -/
theorem run_doc (L : List (List String)) (h : ∀ r ∈ L, r ≠ []) :
    ∀ acc : List (List String),
      List.foldl csvStep ⟨CSVMode.atStart, [], [], acc⟩ (docOf L) =
        ⟨CSVMode.atStart, [], [], acc ++ L⟩ := by
  induction L with
  | nil => intro acc; simp [docOf]
  | cons row t ih =>
    intro acc
    have hsplit : docOf (row :: t) = (joinComma row ++ ['\n']) ++ docOf t := by
      simp [docOf]
    rw [hsplit, List.foldl_append, run_row row (h row (by simp)) [] acc]
    simp only [List.nil_append]
    rw [ih (fun r hr => h r (by simp [hr])) (acc ++ [row])]
    simp

/-- Splitting a serialized document recovers exactly its rows. -/
theorem splitRows_docOf (L : List (List String)) (h : ∀ r ∈ L, r ≠ []) :
    splitRows (docOf L) = some L := by
  have hinit : csvInit = ⟨CSVMode.atStart, [], [], []⟩ := rfl
  rw [splitRows, hinit, run_doc L h []]
  simp [csvFinish]

/-! ## C7: the CSV round trip -/

/-- One written data row parses back to its record. -/
theorem parseRecord_recFields (r : EnrichedBankRecord)
    (h1 : IsDecimalQ r.MC_USD_Billion) (h2 : IsDecimalQ r.MC_GBP_Billion)
    (h3 : IsDecimalQ r.MC_EUR_Billion) (h4 : IsDecimalQ r.MC_INR_Billion) :
    parseRecord (recFields r) = some r := by
  simp only [recFields, parseRecord, parseFloat_formatFloat _ h1,
    parseFloat_formatFloat _ h2, parseFloat_formatFloat _ h3,
    parseFloat_formatFloat _ h4]

/-- Parsing the written data rows yields the records back. -/
theorem mapM_recFields (recs : List EnrichedBankRecord)
    (h : ∀ r ∈ recs, IsDecimalQ r.MC_USD_Billion ∧ IsDecimalQ r.MC_GBP_Billion ∧
      IsDecimalQ r.MC_EUR_Billion ∧ IsDecimalQ r.MC_INR_Billion) :
    (recs.map recFields).mapM parseRecord = some recs := by
  induction recs with
  | nil => rfl
  | cons r t ih =>
    have hr := h r (by simp)
    simp only [List.map_cons, List.mapM_cons,
      parseRecord_recFields r hr.1 hr.2.1 hr.2.2.1 hr.2.2.2,
      ih (fun x hx => h x (by simp [hx]))]
    rfl

/-- C7: writing a ResultTable with `load_to_csv` and re-reading the
file yields the same record set, same values, same order. -/
theorem load_to_csv_roundtrip (recs : List EnrichedBankRecord)
    (h : ∀ r ∈ recs, IsDecimalQ r.MC_USD_Billion ∧ IsDecimalQ r.MC_GBP_Billion ∧
      IsDecimalQ r.MC_EUR_Billion ∧ IsDecimalQ r.MC_INR_Billion) :
    readCSV (load_to_csv recs) = some recs := by
  have hsplit : splitRows (load_to_csv recs).toList =
      some (headerFields :: recs.map recFields) := by
    have hdoc : (load_to_csv recs).toList = docOf (headerFields :: recs.map recFields) := rfl
    rw [hdoc]
    refine splitRows_docOf _ ?_
    intro r hr
    rcases List.mem_cons.mp hr with h1 | h1
    · subst h1; simp [headerFields]
    · obtain ⟨x, hx, rfl⟩ := List.mem_map.mp h1
      simp [recFields]
  have hread : readCSV (load_to_csv recs) = (recs.map recFields).mapM parseRecord := by
    simp only [readCSV]
    rw [hsplit]
    simp
  rw [hread, mapM_recFields recs h]

/-- Witness for C7 on a concrete one-record table. -/
theorem load_to_csv_roundtrip_witness :
    (∀ r ∈ sampleEnriched, IsDecimalQ r.MC_USD_Billion ∧ IsDecimalQ r.MC_GBP_Billion ∧
      IsDecimalQ r.MC_EUR_Billion ∧ IsDecimalQ r.MC_INR_Billion) ∧
    readCSV (load_to_csv sampleEnriched) = some sampleEnriched := by
  have hdec : ∀ r ∈ sampleEnriched, IsDecimalQ r.MC_USD_Billion ∧
      IsDecimalQ r.MC_GBP_Billion ∧ IsDecimalQ r.MC_EUR_Billion ∧
      IsDecimalQ r.MC_INR_Billion := by
    intro r hr
    simp only [sampleEnriched, List.mem_singleton] at hr
    subst hr
    refine ⟨?_, ?_, ?_, ?_⟩
    · show ((201 : ℚ) / 2).den ∣ 10 ^ ((201 : ℚ) / 2).den
      have hd : ((201 : ℚ) / 2).den = 2 := by norm_num
      rw [hd]; norm_num
    · show ((402 : ℚ) / 5).den ∣ 10 ^ ((402 : ℚ) / 5).den
      have hd : ((402 : ℚ) / 5).den = 5 := by norm_num
      rw [hd]; norm_num
    · show ((1809 : ℚ) / 20).den ∣ 10 ^ ((1809 : ℚ) / 20).den
      have hd : ((1809 : ℚ) / 20).den = 20 := by norm_num
      rw [hd]; norm_num
    · show ((8040 : ℚ)).den ∣ 10 ^ ((8040 : ℚ)).den
      have hd : ((8040 : ℚ)).den = 1 := by norm_num
      rw [hd]; norm_num
  exact ⟨hdec, load_to_csv_roundtrip _ hdec⟩

/-! ## C9: header, row count, and decimal formatting of the CSV file -/

/-- The decimal-place count of a rendering `l1 ++ '.' :: l2` with a
dot-free tail is the tail length. -/
theorem fracDigitCount_append (l1 l2 : List Char) (h : ∀ c ∈ l2, c ≠ '.') :
    fracDigitCount (l1 ++ '.' :: l2) = l2.length := by
  unfold fracDigitCount
  rw [List.reverse_append, List.reverse_cons,
    show (l2.reverse ++ ['.']) ++ l1.reverse = l2.reverse ++ '.' :: l1.reverse from by simp,
    takeWhile_no_dot l2.reverse l1.reverse (fun c hc => h c (List.mem_reverse.mp hc)),
    List.length_reverse]

/-- The rendering of a value whose exponent search yields `k0` shows
`max 1 k0` decimal places, whatever sign prefix precedes it. -/
theorem formatNonneg_fracCount (a : ℚ) (k0 : ℕ) (hfind : findExp a.den = some k0)
    (pre : List Char) :
    fracDigitCount (pre ++ formatNonneg a) = max 1 k0 := by
  simp only [formatNonneg, hfind]
  rw [← List.append_assoc]
  set k := max 1 k0 with hk
  have hk1 : 1 ≤ k := le_max_left _ _
  have hlenf : (natToChars ((a * (10 : ℚ) ^ k).num.toNat % 10 ^ k)).length ≤ k :=
    natToChars_length_le _ k hk1 (Nat.mod_lt _ (by positivity))
  rw [fracDigitCount_append]
  · simp only [List.length_append, List.length_replicate]
    omega
  · intro c hc
    rcases List.mem_append.mp hc with hcm | hcm
    · have := List.eq_of_mem_replicate hcm
      subst this
      decide
    · exact isDigit_ne_dot (natToChars_isDigit _ c hcm)

/-- A value rounded to hundredths is rendered with at most two decimal
places. -/
theorem fracDigitCount_le_two (q : ℚ) (h : q.den ∣ 100) :
    fracDigitCount (formatFloatChars q) ≤ 2 := by
  have hden : (-q).den = q.den := Rat.neg_den q
  by_cases hq : q < 0
  · simp only [formatFloatChars, if_pos hq]
    obtain ⟨k0, hfind, hk2, _⟩ :=
      findExp_le_two (-q).den (by rw [hden]; exact q.pos) (by rw [hden]; exact h)
    rw [show ('-' :: formatNonneg (-q)) = ['-'] ++ formatNonneg (-q) from rfl,
      formatNonneg_fracCount (-q) k0 hfind ['-']]
    omega
  · simp only [formatFloatChars, if_neg hq]
    obtain ⟨k0, hfind, hk2, _⟩ := findExp_le_two q.den q.pos h
    rw [show formatNonneg q = [] ++ formatNonneg q from rfl,
      formatNonneg_fracCount q k0 hfind []]
    omega

/-- C9 amended: the CSV file has exactly the claimed header line and
one data row per record, but the derived columns are rendered with at
most two decimal places — trailing zeros are dropped, so exactly two
is not guaranteed. -/
theorem load_to_csv_format (recs : List EnrichedBankRecord)
    (h : ∀ r ∈ recs, r.MC_GBP_Billion.den ∣ 100 ∧ r.MC_EUR_Billion.den ∣ 100 ∧
      r.MC_INR_Billion.den ∣ 100) :
    String.mk (joinComma headerFields) =
      "Name,MC_USD_Billion,MC_GBP_Billion,MC_EUR_Billion,MC_INR_Billion" ∧
    splitRows (load_to_csv recs).toList = some (headerFields :: recs.map recFields) ∧
    (recs.map recFields).length = recs.length ∧
    ∀ r ∈ recs, fracDigitCount (formatFloatChars r.MC_GBP_Billion) ≤ 2 ∧
      fracDigitCount (formatFloatChars r.MC_EUR_Billion) ≤ 2 ∧
      fracDigitCount (formatFloatChars r.MC_INR_Billion) ≤ 2 := by
  refine ⟨by decide, ?_, by simp, ?_⟩
  · have hdoc : (load_to_csv recs).toList = docOf (headerFields :: recs.map recFields) := rfl
    rw [hdoc]
    refine splitRows_docOf _ ?_
    intro r hr
    rcases List.mem_cons.mp hr with h1 | h1
    · subst h1; simp [headerFields]
    · obtain ⟨x, hx, rfl⟩ := List.mem_map.mp h1
      simp [recFields]
  · intro r hr
    obtain ⟨h1, h2, h3⟩ := h r hr
    exact ⟨fracDigitCount_le_two _ h1, fracDigitCount_le_two _ h2,
      fracDigitCount_le_two _ h3⟩

/-- Witness for the amended C9 on a concrete one-record table. -/
theorem load_to_csv_format_witness :
    (∀ r ∈ sampleEnriched, r.MC_GBP_Billion.den ∣ 100 ∧ r.MC_EUR_Billion.den ∣ 100 ∧
      r.MC_INR_Billion.den ∣ 100) ∧
    (String.mk (joinComma headerFields) =
      "Name,MC_USD_Billion,MC_GBP_Billion,MC_EUR_Billion,MC_INR_Billion" ∧
    splitRows (load_to_csv sampleEnriched).toList =
      some (headerFields :: sampleEnriched.map recFields) ∧
    (sampleEnriched.map recFields).length = sampleEnriched.length ∧
    ∀ r ∈ sampleEnriched, fracDigitCount (formatFloatChars r.MC_GBP_Billion) ≤ 2 ∧
      fracDigitCount (formatFloatChars r.MC_EUR_Billion) ≤ 2 ∧
      fracDigitCount (formatFloatChars r.MC_INR_Billion) ≤ 2) := by
  have hden : ∀ r ∈ sampleEnriched, r.MC_GBP_Billion.den ∣ 100 ∧
      r.MC_EUR_Billion.den ∣ 100 ∧ r.MC_INR_Billion.den ∣ 100 := by
    intro r hr
    simp only [sampleEnriched, List.mem_singleton] at hr
    subst hr
    refine ⟨?_, ?_, ?_⟩
    · show ((402 : ℚ) / 5).den ∣ 100
      have hd : ((402 : ℚ) / 5).den = 5 := by norm_num
      rw [hd]; norm_num
    · show ((1809 : ℚ) / 20).den ∣ 100
      have hd : ((1809 : ℚ) / 20).den = 20 := by norm_num
      rw [hd]; norm_num
    · show ((8040 : ℚ)).den ∣ 100
      have hd : ((8040 : ℚ)).den = 1 := by norm_num
      rw [hd]; norm_num
  exact ⟨hden, load_to_csv_format sampleEnriched hden⟩

/-- Evaluation scheme for the float rendering of a nonnegative value. -/
theorem formatFloat_eval (a : ℚ) (k0 n : ℕ) (hneg : ¬a < 0)
    (hfind : findExp a.den = some k0)
    (hnum : (a * (10 : ℚ) ^ (max 1 k0)).num.toNat = n) :
    formatFloat a = String.mk (natToChars (n / 10 ^ (max 1 k0)) ++ '.' ::
      (List.replicate ((max 1 k0) - (natToChars (n % 10 ^ (max 1 k0))).length) '0' ++
        natToChars (n % 10 ^ (max 1 k0)))) := by
  simp only [formatFloat, formatFloatChars, if_neg hneg, formatNonneg, hfind, hnum]

/-- C9 counterexample: on the spec's own BankA record the file content
is exactly the shown text — the derived GBP value `80.4` is written
with one decimal place, not two, because `repr` drops the trailing
zero. -/
theorem load_to_csv_two_decimals_cex :
    load_to_csv sampleEnriched =
      "Name,MC_USD_Billion,MC_GBP_Billion,MC_EUR_Billion,MC_INR_Billion\nBankA,100.5,80.4,90.45,8040.0\n" ∧
    fracDigitCount (formatFloat ((402 : ℚ) / 5)).toList = 1 := by
  have e1 : formatFloat ((201 : ℚ) / 2) = "100.5" := by
    rw [formatFloat_eval ((201 : ℚ) / 2) 1 1005 (by norm_num)
      (by rw [show ((201 : ℚ) / 2).den = 2 from by norm_num]; decide) (by norm_num; rfl)]
    decide
  have e2 : formatFloat ((402 : ℚ) / 5) = "80.4" := by
    rw [formatFloat_eval ((402 : ℚ) / 5) 1 804 (by norm_num)
      (by rw [show ((402 : ℚ) / 5).den = 5 from by norm_num]; decide) (by norm_num; rfl)]
    decide
  have e3 : formatFloat ((1809 : ℚ) / 20) = "90.45" := by
    rw [formatFloat_eval ((1809 : ℚ) / 20) 2 9045 (by norm_num)
      (by rw [show ((1809 : ℚ) / 20).den = 20 from by norm_num]; decide) (by norm_num; rfl)]
    decide
  have e4 : formatFloat ((8040 : ℚ)) = "8040.0" := by
    rw [formatFloat_eval ((8040 : ℚ)) 0 80400 (by norm_num)
      (by rw [show ((8040 : ℚ)).den = 1 from by norm_num]; decide) (by norm_num; rfl)]
    decide
  constructor
  · have hfields : recFields ⟨"BankA", 201 / 2, 402 / 5, 1809 / 20, 8040⟩ =
        ["BankA", "100.5", "80.4", "90.45", "8040.0"] := by
      simp only [recFields, e1, e2, e3, e4]
    simp only [load_to_csv, sampleEnriched, List.map_cons, List.map_nil, hfields]
    decide
  · rw [e2]
    decide
